import Mathlib

/-!
Verification of the oracle-suite multi-source JSON-RPC splitter core and the
teleport event signer.

The splitter's resolution core (dispatcher, resolver strategies, requirement
policy, server framing) is modelled from the specification, since only its
test harness ships in the analysed sources; the event signer is translated
directly from `pkg/event/publisher/teleportevm/signer.go`.
-/

namespace Splitter

/-- A JSON-RPC value as seen by the splitter.  The spec treats call results as
opaque values compared byte-for-byte in their serialized form; `str` stands for
an arbitrary serialized structured value, `num` for a numeric scalar. -/
inductive JVal where
  | null : JVal
  | bool (b : Bool) : JVal
  | num (n : Int) : JVal
  | str (s : String) : JVal
deriving DecidableEq, Repr

deriving instance DecidableEq for Except

/-- Modelled from the spec: `SourceResult — {sourceID, value: opaque value | error}`,
one per Caller per Call.  Errors are opaque strings. -/
structure SourceResult (α : Type) where
  sourceID : Nat
  value : Except String α
deriving DecidableEq, Repr

/-- Modelled from the spec: `RequirementPolicy — {totalSources, minResponses, minAgreeing}`. -/
structure RequirementPolicy where
  totalSources : Nat
  minResponses : Nat
  minAgreeing : Nat
deriving DecidableEq, Repr

/-- The RequirementPolicy invariant `0 < minAgreeing ≤ minResponses ≤ totalSources`. -/
def RequirementPolicy.Valid (p : RequirementPolicy) : Prop :=
  0 < p.minAgreeing ∧ p.minAgreeing ≤ p.minResponses ∧ p.minResponses ≤ p.totalSources

instance (p : RequirementPolicy) : Decidable p.Valid := by
  unfold RequirementPolicy.Valid; infer_instance

/-- Modelled from the spec: the three terminal resolution failures. -/
inductive ConsensusError where
  | InsufficientResponses : ConsensusError
  | NoQuorum : ConsensusError
  | Ambiguous : ConsensusError
deriving DecidableEq, Repr

/-- Modelled from the spec: `CanonicalResult — {value, agreeingSources: set of sourceID}`. -/
structure CanonicalResult (α : Type) where
  value : α
  agreeingSources : Finset Nat
deriving DecidableEq

/-- The successful values of a result set, errored sources dropped. -/
def successValues {α : Type} (rs : List (SourceResult α)) : List α :=
  rs.filterMap (fun r => r.value.toOption)

/-- Size of the group of successes structurally equal to `v`. -/
def groupSize {α : Type} [DecidableEq α] (succ : List α) (v : α) : Nat :=
  succ.count v

/-- Size of the largest group of structurally equal successes. -/
def maxGroupSize {α : Type} [DecidableEq α] (succ : List α) : Nat :=
  (succ.map (groupSize succ)).foldr max 0

/-- The distinct values whose group reaches the maximal group size. -/
def topValues {α : Type} [DecidableEq α] (succ : List α) : List α :=
  (succ.filter (fun v => decide (groupSize succ v = maxGroupSize succ))).dedup

/-- The set of source identifiers that reported exactly `v`. -/
def agreeingSet {α : Type} [DecidableEq α] (rs : List (SourceResult α)) (v : α) : Finset Nat :=
  ((rs.filter (fun r => decide (r.value = Except.ok v))).map SourceResult.sourceID).toFinset

/-- Modelled from the spec: the exact-match strategy.  Groups successes by
structural equality ignoring errored sources, picks the largest group, succeeds
iff it is unique, its size reaches `minAgreeing` and the number of non-error
responses reaches `minResponses`; ties at the top are an irreconcilable fork
reported as `Ambiguous`. -/
def resolveExact {α : Type} [DecidableEq α] (p : RequirementPolicy)
    (rs : List (SourceResult α)) : Except ConsensusError (CanonicalResult α) :=
  let succ := successValues rs
  if succ.length < p.minResponses then .error .InsufficientResponses
  else if maxGroupSize succ < p.minAgreeing then .error .NoQuorum
  else
    match topValues succ with
    | [v] => .ok ⟨v, agreeingSet rs v⟩
    | _ => .error .Ambiguous

/-- `numWindow tol v w` holds when `w` lies in the tolerance window `[v, v + tol]`
anchored at the candidate `v`. -/
def numWindow (tol : Nat) (v w : Int) : Bool :=
  decide (v ≤ w) && decide (w ≤ v + (tol : Int))

/-- Number of successes within the tolerance window anchored at `v`. -/
def windowCount (tol : Nat) (succ : List Int) (v : Int) : Nat :=
  succ.countP (numWindow tol v)

/-- Largest window count over all reported values. -/
def maxWindowCount (tol : Nat) (succ : List Int) : Nat :=
  (succ.map (windowCount tol succ)).foldr max 0

/-- The reported values whose window count is maximal. -/
def numCandidates (tol : Nat) (succ : List Int) : List Int :=
  succ.filter (fun v => decide (windowCount tol succ v = maxWindowCount tol succ))

/-- The set of source identifiers whose successful value lies in the window of `v`. -/
def numAgreeingSet (tol : Nat) (rs : List (SourceResult Int)) (v : Int) : Finset Nat :=
  ((rs.filter (fun r =>
      match r.value with
      | .ok w => numWindow tol v w
      | .error _ => false)).map SourceResult.sourceID).toFinset

/-- Modelled from the spec: the conservative-numeric strategy.  Requires at
least `minAgreeing` successful sources pairwise within the tolerance window
(default 0, exact match); among the best-supported groups the canonical value
is the minimum — the most conservative (most lagging) agreeing value — and the
agreeing set is the window group anchored there.  Otherwise the resolution
fails with a no-quorum `ConsensusError`. -/
def resolveNumeric (p : RequirementPolicy) (tol : Nat)
    (rs : List (SourceResult Int)) : Except ConsensusError (CanonicalResult Int) :=
  let succ := successValues rs
  if maxWindowCount tol succ < p.minAgreeing then .error .NoQuorum
  else if h : (numCandidates tol succ).toFinset.Nonempty then
    let v := (numCandidates tol succ).toFinset.min' h
    .ok ⟨v, numAgreeingSet tol rs v⟩
  else .error .NoQuorum

/-- The successful results of a set paired as `(sourceID, value)`. -/
def okPairs {α : Type} (rs : List (SourceResult α)) : List (Nat × α) :=
  rs.filterMap (fun r =>
    match r.value with
    | .ok v => some (r.sourceID, v)
    | .error _ => none)

/-- Modelled from the spec: the first-success / pass-through strategy.  Returns
the value of the first responding source — the successful source first in the
configured source order, i.e. of least `sourceID`, so that resolution stays a
function of the result set — without comparing it to any other source's value;
still requires `minResponses ≥ 1` successful responses, else fails. -/
def resolveFirst {α : Type} (p : RequirementPolicy)
    (rs : List (SourceResult α)) : Except ConsensusError (CanonicalResult α) :=
  let oks := okPairs rs
  if oks.length < p.minResponses ∨ oks.length = 0 then .error .InsufficientResponses
  else if h : (oks.map Prod.fst).toFinset.Nonempty then
    let m := (oks.map Prod.fst).toFinset.min' h
    match oks.find? (fun q => q.1 == m) with
    | some q => .ok ⟨q.2, {q.1}⟩
    | none => .error .InsufficientResponses
  else .error .InsufficientResponses

/-- Modelled from the spec: the closed set of resolution strategy tags. -/
inductive Strategy where
  | exact : Strategy
  | numeric (tol : Nat) : Strategy
  | firstSuccess : Strategy
deriving DecidableEq, Repr

/-- Modelled from the spec: the resolver registry is a plain table from method
name to strategy tag; an unregistered method uses the default exact-match
strategy. -/
def strategyFor (table : List (String × Strategy)) (method : String) : Strategy :=
  (table.lookup method).getD .exact

/-- Projection of a result set to numeric results: a successful non-numeric
value cannot participate in numeric agreement and is treated as an errored
source by the numeric strategy. -/
def toNumResults (rs : List (SourceResult JVal)) : List (SourceResult Int) :=
  rs.map (fun r =>
    ⟨r.sourceID,
      match r.value with
      | .ok (JVal.num n) => .ok n
      | .ok _ => .error "non-numeric result"
      | .error e => .error e⟩)

/-- Modelled from the spec: `resolve(method, results, policy)` — applies the
strategy selected for the method to the labeled result set. -/
def resolve (s : Strategy) (p : RequirementPolicy)
    (rs : List (SourceResult JVal)) : Except ConsensusError (CanonicalResult JVal) :=
  match s with
  | .exact => resolveExact p rs
  | .numeric tol =>
    (resolveNumeric p tol (toNumResults rs)).map (fun c => ⟨JVal.num c.value, c.agreeingSources⟩)
  | .firstSuccess => resolveFirst p rs

/-- Modelled from the spec: the observable behaviour of one Caller for one
call, abstracting network timing as a completion instant.  `hang` is a caller
that never returns; `panic` is an internal caller fault, isolated by the
Dispatcher. -/
inductive CallerBehavior (α : Type) where
  | ok (v : α) (t : Nat) : CallerBehavior α
  | fail (e : String) (t : Nat) : CallerBehavior α
  | hang : CallerBehavior α
  | panic (t : Nat) : CallerBehavior α
deriving DecidableEq, Repr

/-- The cancellation error folded into the result set for callers still
outstanding when the shared deadline expires. -/
def cancelMsg : String := "context cancelled"

/-- The recovered-fault error folded into the result set for callers that
panic before the deadline. -/
def panicMsg : String := "caller fault recovered"

/-- Whether the caller is still outstanding when the shared deadline expires. -/
def outstandingAtDeadline {α : Type} (deadline : Nat) (b : CallerBehavior α) : Bool :=
  match b with
  | .ok _ t => decide (deadline < t)
  | .fail _ t => decide (deadline < t)
  | .hang => true
  | .panic t => decide (deadline < t)

/-- The single `SourceResult` value one caller contributes under the shared
deadline. -/
def runCaller {α : Type} (deadline : Nat) (b : CallerBehavior α) : Except String α :=
  match b with
  | .ok v t => if t ≤ deadline then .ok v else .error cancelMsg
  | .fail e t => if t ≤ deadline then .error e else .error cancelMsg
  | .hang => .error cancelMsg
  | .panic t => if t ≤ deadline then .error panicMsg else .error cancelMsg

/-- Modelled from the spec: `dispatch(ctx, call, callers) -> []SourceResult`.
Fans the call out to every configured caller under one shared deadline and
collects exactly one labeled result per caller, the caller's index being its
source identifier. -/
def dispatch {α : Type} (deadline : Nat) (callers : List (CallerBehavior α)) :
    List (SourceResult α) :=
  callers.enum.map (fun q => ⟨q.1, runCaller deadline q.2⟩)

/-- Modelled from the spec: a JSON-RPC request envelope.  Params are opaque to
resolution and omitted from the model. -/
structure RpcRequest where
  id : Int
  jsonrpc : String
  method : String
deriving DecidableEq, Repr

/-- A JSON-RPC error object: `error.code` and `error.message`. -/
structure RpcError where
  code : Int
  message : String
deriving DecidableEq, Repr

/-- Modelled from the spec: a JSON-RPC response envelope; `result` and `error`
are mutually exclusive. -/
structure RpcResponse where
  id : Int
  jsonrpc : String
  result : Option JVal
  error : Option RpcError
deriving DecidableEq, Repr

/-- Modelled from the spec: each resolution failure kind is surfaced to the
client as a stable classified reason — a fixed code and message per kind,
never the raw upstream error text or source identities. -/
def classify : ConsensusError → RpcError
  | .InsufficientResponses => ⟨-32001, "insufficient responses"⟩
  | .NoQuorum => ⟨-32002, "no quorum"⟩
  | .Ambiguous => ⟨-32003, "ambiguous"⟩

/-- Modelled from the spec: the Splitter Server's per-request pipeline —
dispatch to all callers, resolve under the method's strategy, and encode the
JSON-RPC response, echoing `id` and emitting `jsonrpc = "2.0"`. -/
def serve (table : List (String × Strategy)) (p : RequirementPolicy) (deadline : Nat)
    (callers : List (CallerBehavior JVal)) (req : RpcRequest) : RpcResponse :=
  match resolve (strategyFor table req.method) p (dispatch deadline callers) with
  | .ok c => ⟨req.id, "2.0", some c.value, none⟩
  | .error e => ⟨req.id, "2.0", none, some (classify e)⟩

/-- Modelled from the spec: startup configuration failures — an invariant
violation in the RequirementPolicy or a `totalSources` not matching the
endpoint list length. -/
inductive ConfigError where
  | invalidPolicy : ConfigError
  | sourceCountMismatch : ConfigError
deriving DecidableEq, Repr

/-- Modelled from the spec: a constructed Splitter Server — the endpoint list,
per-call timeout, strategy table and requirement policy, all read-only after
construction. -/
structure Server where
  endpoints : List String
  timeout : Nat
  table : List (String × Strategy)
  policy : RequirementPolicy
deriving DecidableEq, Repr

/-- Modelled from the spec: Server construction validates the configuration and
fails fast with a `ConfigError` on an invalid RequirementPolicy or a mismatched
`totalSources`, so no request is ever processed under an invalid policy. -/
def newServer (endpoints : List String) (timeout : Nat)
    (table : List (String × Strategy)) (p : RequirementPolicy) :
    Except ConfigError Server :=
  if p.totalSources ≠ endpoints.length then .error .sourceCountMismatch
  else if ¬ p.Valid then .error .invalidPolicy
  else .ok ⟨endpoints, timeout, table, p⟩

end Splitter

namespace Teleport

/-- Byte strings are sequences of byte values. -/
abbrev Bytes : Type := List Nat

/-- One entry of an event's signatures map, from `messages.EventSignature`:
the signer's address bytes and the signature bytes. -/
structure EventSignature where
  signer : Bytes
  signature : Bytes
deriving DecidableEq, Repr

/-- The part of `messages.Event` read and written by `Signer.Sign`: the event
type, the data map (`none` models a nil Go map, distinct from an empty one)
and the signatures map. -/
structure Event where
  type : String
  data : Option (List (String × Bytes))
  signatures : Option (List (String × EventSignature))
deriving DecidableEq, Repr

/-- The `wallet.Key` interface as used by the signer: an address and a
fallible `SignMessage`. -/
structure Key where
  address : Bytes
  signMessage : Bytes → Except String Bytes

/-- Go map assignment `m[k] = v`: replaces the value under an existing key,
otherwise appends the binding (keys are unique in a Go map). -/
def mapSet : List (String × EventSignature) → String → EventSignature →
    List (String × EventSignature)
  | [], k, v => [(k, v)]
  | q :: tl, k, v => if q.1 == k then (k, v) :: tl else q :: mapSet tl k v

/-- From `signer.go`: `SignatureKey = "ethereum"`. -/
def SignatureKey : String := "ethereum"

/-- From `signer.go`: the `Signer` struct — a signing key and the list of
event types it signs. -/
structure Signer where
  signer : Key
  types : List String

/-- From `signer.go`: `Signer.Sign`.  Returns the `(bool, error)` pair as an
`Except String Bool` together with the (possibly updated) event, making the
mutation explicit: the event is returned unchanged on every non-successful
path. -/
def Signer.sign (l : Signer) (event : Event) : Except String Bool × Event :=
  if l.types.contains event.type then
    match event.data with
    | none => (.error "event data is nil", event)
    | some d =>
      match d.lookup "hash" with
      | none => (.error "missing hash field", event)
      | some h =>
        match l.signer.signMessage h with
        | .error err => (.error err, event)
        | .ok s =>
          let sigs := event.signatures.getD []
          (.ok true,
            { event with signatures := some (mapSet sigs SignatureKey ⟨l.signer.address, s⟩) })
  else (.ok false, event)

end Teleport

namespace Splitter

lemma le_foldrMax {l : List Nat} {a : Nat} (h : a ∈ l) : a ≤ l.foldr max 0 := by
  induction l with
  | nil => cases h
  | cons b tl ih =>
    rcases List.mem_cons.mp h with rfl | h'
    · exact Nat.le_max_left _ _
    · exact le_trans (ih h') (Nat.le_max_right _ _)

lemma foldrMax_eq_zero_or_mem (l : List Nat) : l.foldr max 0 = 0 ∨ l.foldr max 0 ∈ l := by
  induction l with
  | nil => exact Or.inl rfl
  | cons b tl ih =>
    rcases Nat.le_total b (tl.foldr max 0) with hb | hb
    · rcases ih with h0 | hmem
      · left
        simp only [List.foldr_cons, h0]
        simpa [h0] using Nat.le_antisymm (h0 ▸ hb) (Nat.zero_le b)
      · right
        simp only [List.foldr_cons, Nat.max_eq_right hb]
        exact List.mem_cons_of_mem _ hmem
    · right
      simp only [List.foldr_cons, Nat.max_eq_left hb]
      exact List.mem_cons_self _ _

lemma foldrMax_perm {l₁ l₂ : List Nat} (h : l₁.Perm l₂) :
    l₁.foldr max 0 = l₂.foldr max 0 :=
  haveI : LeftCommutative (max : Nat → Nat → Nat) := max_left_commutative
  h.foldr_eq 0

lemma toFinset_perm {α : Type} [DecidableEq α] {l₁ l₂ : List α} (h : l₁.Perm l₂) :
    l₁.toFinset = l₂.toFinset := by
  ext a
  simp [List.mem_toFinset, h.mem_iff]

lemma successValues_perm {α : Type} {rs₁ rs₂ : List (SourceResult α)} (h : rs₁.Perm rs₂) :
    (successValues rs₁).Perm (successValues rs₂) :=
  h.filterMap _

end Splitter

namespace Splitter

lemma groupSize_le_max {α : Type} [DecidableEq α] (succ : List α) (w : α) :
    groupSize succ w ≤ maxGroupSize succ := by
  by_cases hw : w ∈ succ
  · exact le_foldrMax (List.mem_map.mpr ⟨w, hw, rfl⟩)
  · simp [groupSize, List.count_eq_zero.mpr hw]

lemma maxGroupSize_attained {α : Type} [DecidableEq α] {succ : List α}
    (h : 0 < maxGroupSize succ) : ∃ v ∈ succ, groupSize succ v = maxGroupSize succ := by
  rcases foldrMax_eq_zero_or_mem (succ.map (groupSize succ)) with h0 | hmem
  · exact absurd h (by simp [maxGroupSize, h0])
  · rcases List.mem_map.mp hmem with ⟨v, hv, hveq⟩
    exact ⟨v, hv, hveq⟩

lemma mem_topValues {α : Type} [DecidableEq α] {succ : List α} {v : α} :
    v ∈ topValues succ ↔ v ∈ succ ∧ groupSize succ v = maxGroupSize succ := by
  simp [topValues, List.mem_dedup, List.mem_filter]

lemma topValues_ne_nil {α : Type} [DecidableEq α] {succ : List α}
    (h : 0 < maxGroupSize succ) : topValues succ ≠ [] := by
  rcases maxGroupSize_attained h with ⟨v, hv, hveq⟩
  intro hnil
  exact (List.ne_nil_of_mem (mem_topValues.mpr ⟨hv, hveq⟩)) hnil

lemma maxGroupSize_perm {α : Type} [DecidableEq α] {l₁ l₂ : List α} (h : l₁.Perm l₂) :
    maxGroupSize l₁ = maxGroupSize l₂ := by
  unfold maxGroupSize
  have hcongr : l₁.map (groupSize l₁) = l₁.map (groupSize l₂) :=
    List.map_congr_left (fun a _ => h.count_eq a)
  rw [hcongr]
  exact foldrMax_perm (h.map (groupSize l₂))

lemma topValues_perm {α : Type} [DecidableEq α] {l₁ l₂ : List α} (h : l₁.Perm l₂) :
    (topValues l₁).Perm (topValues l₂) := by
  unfold topValues
  have hcongr : l₁.filter (fun v => decide (groupSize l₁ v = maxGroupSize l₁)) =
      l₁.filter (fun v => decide (groupSize l₂ v = maxGroupSize l₂)) := by
    apply List.filter_congr
    intro a _
    simp only [groupSize, h.count_eq a, maxGroupSize_perm h]
  rw [hcongr]
  exact (h.filter _).dedup

lemma agreeingSet_perm {α : Type} [DecidableEq α] {rs₁ rs₂ : List (SourceResult α)}
    (h : rs₁.Perm rs₂) (v : α) : agreeingSet rs₁ v = agreeingSet rs₂ v :=
  toFinset_perm ((h.filter _).map _)

end Splitter

namespace Splitter

/-- **C1.** For every labeled result set and every valid RequirementPolicy, the
exact-match resolution strategy groups the successful values by structural
equality ignoring errored sources and returns the value of the (unique) largest
group exactly when its size reaches `minAgreeing` and the number of non-error
responses reaches `minResponses`; with fewer than `minResponses` responses it
fails with `InsufficientResponses`, with enough responses but no group of size
`minAgreeing` it fails with `NoQuorum`, and when two or more groups tie at the
maximal size and clear the quorum it fails with `Ambiguous` rather than picking
one of them. -/
theorem exactMatch_characterization {α : Type} [DecidableEq α]
    (p : RequirementPolicy) (rs : List (SourceResult α)) (hp : p.Valid) :
    (resolveExact p rs = .error .InsufficientResponses ↔
      (successValues rs).length < p.minResponses)
    ∧ (resolveExact p rs = .error .NoQuorum ↔
      p.minResponses ≤ (successValues rs).length ∧
        maxGroupSize (successValues rs) < p.minAgreeing)
    ∧ (resolveExact p rs = .error .Ambiguous ↔
      p.minResponses ≤ (successValues rs).length ∧
        p.minAgreeing ≤ maxGroupSize (successValues rs) ∧
        2 ≤ (topValues (successValues rs)).length)
    ∧ (∀ v s, resolveExact p rs = .ok ⟨v, s⟩ ↔
      p.minResponses ≤ (successValues rs).length ∧
        p.minAgreeing ≤ maxGroupSize (successValues rs) ∧
        topValues (successValues rs) = [v] ∧ s = agreeingSet rs v)
    ∧ (∀ v s, resolveExact p rs = .ok ⟨v, s⟩ →
      groupSize (successValues rs) v = maxGroupSize (successValues rs) ∧
        ∀ w, groupSize (successValues rs) w ≤ groupSize (successValues rs) v) := by
  by_cases h1 : (successValues rs).length < p.minResponses
  · have hres : resolveExact p rs = .error .InsufficientResponses := by
      simp [resolveExact, h1]
    rw [hres]
    refine ⟨by simp [h1], ?_, ?_, ?_, ?_⟩
    · constructor
      · intro h; simp at h
      · rintro ⟨hA, -⟩; omega
    · constructor
      · intro h; simp at h
      · rintro ⟨hA, -⟩; omega
    · intro v s
      constructor
      · intro h; simp at h
      · rintro ⟨hA, -⟩; omega
    · intro v s h; simp at h
  · by_cases h2 : maxGroupSize (successValues rs) < p.minAgreeing
    · have hres : resolveExact p rs = .error .NoQuorum := by
        simp [resolveExact, h1, h2]
      rw [hres]
      refine ⟨by simp [h1], ?_, ?_, ?_, ?_⟩
      · constructor
        · intro _; exact ⟨Nat.le_of_not_lt h1, h2⟩
        · intro _; rfl
      · constructor
        · intro h; simp at h
        · rintro ⟨-, hB, -⟩; omega
      · intro v s
        constructor
        · intro h; simp at h
        · rintro ⟨-, hB, -⟩; omega
      · intro v s h; simp at h
    · have hmaxpos : 0 < maxGroupSize (successValues rs) :=
        Nat.lt_of_lt_of_le hp.1 (Nat.le_of_not_lt h2)
      rcases htop : topValues (successValues rs) with _ | ⟨a, _ | ⟨b, tl⟩⟩
      · exact absurd htop (topValues_ne_nil hmaxpos)
      · have hres : resolveExact p rs = .ok ⟨a, agreeingSet rs a⟩ := by
          simp [resolveExact, h1, h2, htop]
        rw [hres]
        refine ⟨by simp [h1], ?_, ?_, ?_, ?_⟩
        · constructor
          · intro h; simp at h
          · rintro ⟨-, hB⟩; omega
        · constructor
          · intro h; simp at h
          · rintro ⟨-, -, hlen⟩
            simp at hlen
        · intro v s
          constructor
          · intro h
            rw [Except.ok.injEq, CanonicalResult.mk.injEq] at h
            obtain ⟨hv, hs⟩ := h
            refine ⟨Nat.le_of_not_lt h1, Nat.le_of_not_lt h2, ?_, ?_⟩
            · rw [hv]
            · rw [← hs, ← hv]
          · rintro ⟨-, -, htv, hs⟩
            have hv : a = v := by injection htv
            cases hv
            rw [hs]
        · intro v s h
          rw [Except.ok.injEq, CanonicalResult.mk.injEq] at h
          obtain ⟨hv, -⟩ := h
          have hmem : v ∈ topValues (successValues rs) := by
            rw [htop, ← hv]
            exact List.mem_singleton_self a
          have hgs := (mem_topValues.mp hmem).2
          refine ⟨hgs, fun w => ?_⟩
          rw [hgs]
          exact groupSize_le_max (successValues rs) w
      · have hres : resolveExact p rs = .error .Ambiguous := by
          simp [resolveExact, h1, h2, htop]
        rw [hres]
        refine ⟨by simp [h1], ?_, ?_, ?_, ?_⟩
        · constructor
          · intro h; simp at h
          · rintro ⟨-, hB⟩; omega
        · constructor
          · intro _
            exact ⟨Nat.le_of_not_lt h1, Nat.le_of_not_lt h2, by simp⟩
          · intro _; rfl
        · intro v s
          constructor
          · intro h; simp at h
          · rintro ⟨-, -, htv, -⟩
            simp at htv
        · intro v s h; simp at h

end Splitter

namespace Splitter

/-- A four-source result set split two against two on a structured value. -/
def forkResults : List (SourceResult Nat) :=
  [⟨0, .ok 10⟩, ⟨1, .ok 10⟩, ⟨2, .ok 20⟩, ⟨3, .ok 20⟩]

/-- Witness for C1: at the concrete fork `2×A / 2×B` with `minAgreeing = 2` the
characterization applies and yields `Ambiguous`. -/
theorem exactMatch_characterization_witness :
    (⟨4, 2, 2⟩ : RequirementPolicy).Valid ∧
      resolveExact (⟨4, 2, 2⟩ : RequirementPolicy) forkResults = .error .Ambiguous :=
  ⟨by decide,
    ((exactMatch_characterization (⟨4, 2, 2⟩ : RequirementPolicy) forkResults
      (by decide)).2.2.1).mpr (by decide)⟩

end Splitter

namespace Splitter

/-- **C5.** For every call and every configured list of callers, dispatch
returns exactly one `SourceResult` per configured caller — no more, no fewer —
regardless of how each caller behaves (success, error, panic, or not returning
before the deadline); a caller still outstanding when the shared deadline
expires contributes a `SourceResult` whose value is a cancellation error. -/
theorem dispatch_exactly_one {α : Type} (d : Nat) (cs : List (CallerBehavior α)) :
    (dispatch d cs).length = cs.length
    ∧ ∀ (i : Nat) (b : CallerBehavior α), cs[i]? = some b →
        (dispatch d cs)[i]? = some ⟨i, runCaller d b⟩
        ∧ (outstandingAtDeadline d b = true → runCaller d b = .error cancelMsg) := by
  constructor
  · simp [dispatch]
  · intro i b hib
    constructor
    · simp [dispatch, List.enum, hib]
    · intro hout
      cases b with
      | ok v t =>
        simp only [outstandingAtDeadline, decide_eq_true_eq] at hout
        simp [runCaller, Nat.not_le_of_lt hout]
      | fail e t =>
        simp only [outstandingAtDeadline, decide_eq_true_eq] at hout
        simp [runCaller, Nat.not_le_of_lt hout]
      | hang => rfl
      | panic t =>
        simp only [outstandingAtDeadline, decide_eq_true_eq] at hout
        simp [runCaller, Nat.not_le_of_lt hout]

/-- A concrete caller list exercising all behaviours. -/
def demoCallers : List (CallerBehavior JVal) :=
  [.ok (JVal.num 1) 5, .hang, .fail "boom" 3, .ok (JVal.num 2) 20]

/-- Witness for C5: at deadline 10, the hanging caller at index 1 yields the
cancellation error and the dispatch still returns one result per caller. -/
theorem dispatch_exactly_one_witness :
    (dispatch 10 demoCallers).length = demoCallers.length
    ∧ (dispatch 10 demoCallers)[1]? = some ⟨1, .error cancelMsg⟩ := by
  have h := dispatch_exactly_one (α := JVal) 10 demoCallers
  exact ⟨h.1, (h.2 1 .hang (by decide)).1⟩

end Splitter

namespace Splitter

/-- **C6.** Envelope fidelity: for every well-formed JSON-RPC request the
Server's response carries the request's `id` unchanged and `jsonrpc = "2.0"`;
a successful resolution produces a response with a `result` field and no
`error`, and every failure produces a response carrying `error.code` and
`error.message` and no `result`. -/
theorem envelope_fidelity (table : List (String × Strategy)) (p : RequirementPolicy)
    (d : Nat) (cs : List (CallerBehavior JVal)) (req : RpcRequest) :
    (serve table p d cs req).id = req.id
    ∧ (serve table p d cs req).jsonrpc = "2.0"
    ∧ (∀ c, resolve (strategyFor table req.method) p (dispatch d cs) = .ok c →
        serve table p d cs req = ⟨req.id, "2.0", some c.value, none⟩)
    ∧ (∀ e, resolve (strategyFor table req.method) p (dispatch d cs) = .error e →
        serve table p d cs req = ⟨req.id, "2.0", none, some (classify e)⟩) := by
  cases hr : resolve (strategyFor table req.method) p (dispatch d cs) with
  | ok c => refine ⟨?_, ?_, ?_, ?_⟩ <;> simp [serve, hr]
  | error e => refine ⟨?_, ?_, ?_, ?_⟩ <;> simp [serve, hr]

/-- Two callers that always agree on the numeric value 1. -/
def agreeingCallers : List (CallerBehavior JVal) :=
  [.ok (JVal.num 1) 5, .ok (JVal.num 1) 6]

/-- Witness for C6: a concrete successful resolution echoes `id = 7`, carries
`jsonrpc = "2.0"`, a `result` and no `error`. -/
theorem envelope_fidelity_witness :
    serve [] ⟨2, 2, 2⟩ 10 agreeingCallers ⟨7, "2.0", "eth_call"⟩
      = ⟨7, "2.0", some (JVal.num 1), none⟩ :=
  (envelope_fidelity [] ⟨2, 2, 2⟩ 10 agreeingCallers ⟨7, "2.0", "eth_call"⟩).2.2.1
    ⟨JVal.num 1, {0, 1}⟩ (by decide)

/-- **C9.** Non-leakage of upstream identity: any two server runs whose
resolutions fail with the same failure kind produce the same client-facing
JSON-RPC error — the fixed classified reason for that kind — regardless of
which sources disagreed or what the raw upstream error texts were. -/
theorem no_upstream_leakage (table : List (String × Strategy)) (p : RequirementPolicy)
    (d₁ d₂ : Nat) (cs₁ cs₂ : List (CallerBehavior JVal)) (req₁ req₂ : RpcRequest)
    (e : ConsensusError)
    (h₁ : resolve (strategyFor table req₁.method) p (dispatch d₁ cs₁) = .error e)
    (h₂ : resolve (strategyFor table req₂.method) p (dispatch d₂ cs₂) = .error e) :
    (serve table p d₁ cs₁ req₁).error = (serve table p d₂ cs₂ req₂).error
    ∧ (serve table p d₁ cs₁ req₁).error = some (classify e) := by
  simp [serve, h₁, h₂]

/-- Witness for C9: two runs against different callers failing with different
raw upstream error texts surface the identical classified error object. -/
theorem no_upstream_leakage_witness :
    (serve [] ⟨1, 1, 1⟩ 10 [.fail "node-A v1.2.3: secret" 0] ⟨1, "2.0", "m"⟩).error
      = (serve [] ⟨1, 1, 1⟩ 10 [.fail "node-B v9.9: other" 0, .fail "x" 0] ⟨2, "2.0", "m"⟩).error
    ∧ (serve [] ⟨1, 1, 1⟩ 10 [.fail "node-A v1.2.3: secret" 0] ⟨1, "2.0", "m"⟩).error
      = some (classify .InsufficientResponses) :=
  no_upstream_leakage [] ⟨1, 1, 1⟩ 10 10 [.fail "node-A v1.2.3: secret" 0]
    [.fail "node-B v9.9: other" 0, .fail "x" 0] ⟨1, "2.0", "m"⟩ ⟨2, "2.0", "m"⟩
    .InsufficientResponses (by decide) (by decide)

/-- **C8.** Startup validation: every configuration violating the
RequirementPolicy invariant `0 < minAgreeing ≤ minResponses ≤ totalSources`, or
whose `totalSources` does not match the endpoint list length, makes Server
construction fail with a `ConfigError`; conversely every constructed Server
carries a valid policy matching its endpoint list, so no request is ever
processed under an invalid policy. -/
theorem startup_validation (endpoints : List String) (timeout : Nat)
    (table : List (String × Strategy)) (p : RequirementPolicy) :
    ((¬ p.Valid ∨ p.totalSources ≠ endpoints.length) →
      ∃ ce, newServer endpoints timeout table p = .error ce)
    ∧ (∀ s, newServer endpoints timeout table p = .ok s →
        p.Valid ∧ s.policy = p ∧ p.totalSources = endpoints.length) := by
  constructor
  · intro hbad
    by_cases htot : p.totalSources = endpoints.length
    · rcases hbad with hval | hmis
      · exact ⟨.invalidPolicy, by simp [newServer, htot, hval]⟩
      · exact absurd htot hmis
    · exact ⟨.sourceCountMismatch, by simp [newServer, htot]⟩
  · intro s hs
    by_cases htot : p.totalSources = endpoints.length
    · by_cases hval : p.Valid
      · simp only [newServer, htot, hval] at hs
        simp at hs
        exact ⟨hval, by rw [← hs], htot⟩
      · simp [newServer, htot, hval] at hs
    · simp [newServer, htot] at hs

/-- Witness for C8: constructing a Server with `minAgreeing > minResponses`
fails with a `ConfigError`. -/
theorem startup_validation_witness :
    (¬ (⟨2, 1, 2⟩ : RequirementPolicy).Valid ∨
      (⟨2, 1, 2⟩ : RequirementPolicy).totalSources ≠ (["a", "b"] : List String).length)
    ∧ ∃ ce, newServer ["a", "b"] 1 [] ⟨2, 1, 2⟩ = .error ce :=
  ⟨Or.inl (by decide),
    (startup_validation ["a", "b"] 1 [] ⟨2, 1, 2⟩).1 (Or.inl (by decide))⟩

end Splitter

namespace Teleport

lemma mapSet_lookup_self (m : List (String × EventSignature)) (k : String)
    (v : EventSignature) : (mapSet m k v).lookup k = some v := by
  induction m with
  | nil => simp [mapSet, List.lookup]
  | cons q tl ih =>
    by_cases hq : q.1 = k
    · simp [mapSet, hq, List.lookup]
    · have hq' : (q.1 == k) = false := beq_eq_false_iff_ne.mpr hq
      have hq'' : (k == q.1) = false := beq_eq_false_iff_ne.mpr (Ne.symm hq)
      simp [mapSet, hq', List.lookup, hq'', ih]

lemma mapSet_lookup_other (m : List (String × EventSignature)) (k k' : String)
    (v : EventSignature) (h : k' ≠ k) :
    (mapSet m k v).lookup k' = m.lookup k' := by
  induction m with
  | nil => simp [mapSet, List.lookup, beq_eq_false_iff_ne.mpr h]
  | cons q tl ih =>
    by_cases hq : q.1 = k
    · simp [mapSet, hq, List.lookup, beq_eq_false_iff_ne.mpr h]
    · have hq' : (q.1 == k) = false := beq_eq_false_iff_ne.mpr hq
      by_cases hk' : k' = q.1
      · simp [mapSet, hq', List.lookup, hk']
      · simp [mapSet, hq', List.lookup, beq_eq_false_iff_ne.mpr hk', ih]

/-- **C10.** Event-signer atomicity, from `signer.go`: `Signer.Sign` mutates
the event only on the successful path — an unsupported event type returns
`(false, nil)` with the event unchanged; a nil data map, a missing `"hash"`
field, or a failing `SignMessage` returns the corresponding error with the
event (in particular its signatures map) unchanged; on success it returns
`(true, nil)` having set exactly the `"ethereum"` entry of the signatures map
to the signer's address and the signature of the hash field, leaving every
other entry and every other event field unchanged. -/
theorem sign_atomicity (l : Signer) (e : Event) :
    (e.type ∉ l.types → l.sign e = (.ok false, e))
    ∧ (e.type ∈ l.types → e.data = none →
        l.sign e = (.error "event data is nil", e))
    ∧ (∀ d, e.type ∈ l.types → e.data = some d → d.lookup "hash" = none →
        l.sign e = (.error "missing hash field", e))
    ∧ (∀ d h err, e.type ∈ l.types → e.data = some d → d.lookup "hash" = some h →
        l.signer.signMessage h = .error err → l.sign e = (.error err, e))
    ∧ (∀ d h s, e.type ∈ l.types → e.data = some d → d.lookup "hash" = some h →
        l.signer.signMessage h = .ok s →
        (l.sign e).1 = .ok true
        ∧ ∃ m, (l.sign e).2.signatures = some m
            ∧ m.lookup SignatureKey = some ⟨l.signer.address, s⟩
            ∧ (∀ k, k ≠ SignatureKey → m.lookup k = (e.signatures.getD []).lookup k)
            ∧ (l.sign e).2.type = e.type ∧ (l.sign e).2.data = e.data) := by
  refine ⟨?_, ?_, ?_, ?_, ?_⟩
  · intro hty
    simp [Signer.sign, hty]
  · intro hty hd
    simp [Signer.sign, hty, hd]
  · intro d hty hd hh
    simp [Signer.sign, hty, hd, hh]
  · intro d h err hty hd hh herr
    simp [Signer.sign, hty, hd, hh, herr]
  · intro d h s hty hd hh hs
    have hres : l.sign e = (.ok true, { e with signatures := some (mapSet (e.signatures.getD []) SignatureKey ⟨l.signer.address, s⟩) }) := by
      simp [Signer.sign, hty, hd, hh, hs]
    rw [hres]
    refine ⟨rfl, mapSet (e.signatures.getD []) SignatureKey ⟨l.signer.address, s⟩,
      rfl, mapSet_lookup_self _ _ _, ?_, rfl, rfl⟩
    intro k hk
    exact mapSet_lookup_other _ _ _ _ hk

/-- A concrete deterministic key whose signature of `h` is `h ++ [9]`. -/
def demoKey : Key := ⟨[1, 2], fun h => .ok (h ++ [9])⟩

/-- A concrete event with a hash field and a pre-existing unrelated signature. -/
def demoEvent : Event :=
  ⟨"teleport_evm", some [("hash", [5])], some [("other", ⟨[7], [8]⟩)]⟩

/-- Witness for C10: signing the concrete event succeeds, stores the
`ethereum` signature of the hash field and keeps the unrelated entry. -/
theorem sign_atomicity_witness :
    "teleport_evm" ∈ ["teleport_evm"] ∧
      (Signer.sign ⟨demoKey, ["teleport_evm"]⟩ demoEvent).1 = .ok true := by
  have h := (sign_atomicity ⟨demoKey, ["teleport_evm"]⟩ demoEvent).2.2.2.2
    [("hash", [5])] [5] [5, 9] (by decide) rfl (by decide) rfl
  exact ⟨by decide, h.1⟩

end Teleport

namespace Splitter

lemma numWindow_self (tol : Nat) (v : Int) : numWindow tol v v = true := by
  simp only [numWindow, Bool.and_eq_true, decide_eq_true_eq]
  omega

lemma windowCount_le_max {tol : Nat} {succ : List Int} {v : Int} (hv : v ∈ succ) :
    windowCount tol succ v ≤ maxWindowCount tol succ :=
  le_foldrMax (List.mem_map.mpr ⟨v, hv, rfl⟩)

lemma maxWindowCount_attained {tol : Nat} {succ : List Int}
    (h : 0 < maxWindowCount tol succ) :
    ∃ v ∈ succ, windowCount tol succ v = maxWindowCount tol succ := by
  rcases foldrMax_eq_zero_or_mem (succ.map (windowCount tol succ)) with h0 | hmem
  · exact absurd h (by simp [maxWindowCount, h0])
  · rcases List.mem_map.mp hmem with ⟨v, hv, hveq⟩
    exact ⟨v, hv, hveq⟩

lemma mem_numCandidates {tol : Nat} {succ : List Int} {v : Int} :
    v ∈ numCandidates tol succ ↔
      v ∈ succ ∧ windowCount tol succ v = maxWindowCount tol succ := by
  simp [numCandidates, List.mem_filter]

lemma card_window_filter (tol : Nat) (succ : List Int) (v : Int) :
    Multiset.card (Multiset.filter (fun a => numWindow tol v a = true)
        (succ : Multiset Int)) = windowCount tol succ v := by
  rw [← Multiset.countP_eq_card_filter, Multiset.coe_countP]
  unfold windowCount
  apply List.countP_congr
  intro a _
  cases numWindow tol v a <;> simp

lemma pairwise_agree_iff (tol : Nat) (succ : List Int) {k : Nat} (hk : 0 < k) :
    (∃ S : Multiset Int, S ≤ (succ : Multiset Int) ∧ k ≤ Multiset.card S ∧
        ∀ a ∈ S, ∀ b ∈ S, (a - b).natAbs ≤ tol)
      ↔ k ≤ maxWindowCount tol succ := by
  constructor
  · rintro ⟨S, hSle, hcard, hpair⟩
    have hS0 : S ≠ 0 := by
      intro h0
      rw [h0] at hcard
      simp at hcard
      omega
    have hne : S.toFinset.Nonempty := Multiset.toFinset_nonempty.mpr hS0
    have hv0S : S.toFinset.min' hne ∈ S :=
      Multiset.mem_toFinset.mp (S.toFinset.min'_mem hne)
    have hv0succ : S.toFinset.min' hne ∈ succ :=
      Multiset.mem_coe.mp (Multiset.mem_of_le hSle hv0S)
    have hwin : ∀ a ∈ S, numWindow tol (S.toFinset.min' hne) a = true := by
      intro a ha
      have h1 : S.toFinset.min' hne ≤ a :=
        Finset.min'_le S.toFinset a (Multiset.mem_toFinset.mpr ha)
      have h2 : (a - S.toFinset.min' hne).natAbs ≤ tol := hpair a ha _ hv0S
      simp only [numWindow, Bool.and_eq_true, decide_eq_true_eq]
      omega
    have hle2 : S ≤ Multiset.filter (fun a => numWindow tol (S.toFinset.min' hne) a = true)
        (succ : Multiset Int) := Multiset.le_filter.mpr ⟨hSle, hwin⟩
    have hcard2 := Multiset.card_le_card hle2
    rw [card_window_filter] at hcard2
    exact le_trans hcard (le_trans hcard2 (windowCount_le_max hv0succ))
  · intro hmax
    obtain ⟨v, hv, hveq⟩ := maxWindowCount_attained (Nat.lt_of_lt_of_le hk hmax)
    refine ⟨((succ.filter (numWindow tol v) : List Int) : Multiset Int), ?_, ?_, ?_⟩
    · exact Multiset.coe_le.mpr (List.filter_sublist succ).subperm
    · rw [Multiset.coe_card, ← List.countP_eq_length_filter]
      show k ≤ windowCount tol succ v
      rw [hveq]
      exact hmax
    · intro a ha b hb
      rw [Multiset.mem_coe, List.mem_filter] at ha hb
      have ha2 := ha.2
      have hb2 := hb.2
      simp only [numWindow, Bool.and_eq_true, decide_eq_true_eq] at ha2 hb2
      omega

lemma resolveNumeric_ok_iff (p : RequirementPolicy) (tol : Nat)
    (rs : List (SourceResult Int)) (hp : 0 < p.minAgreeing) :
    (∃ c, resolveNumeric p tol rs = .ok c) ↔
      p.minAgreeing ≤ maxWindowCount tol (successValues rs) := by
  constructor
  · rintro ⟨c, hc⟩
    by_cases hlt : maxWindowCount tol (successValues rs) < p.minAgreeing
    · simp [resolveNumeric, hlt] at hc
    · exact Nat.le_of_not_lt hlt
  · intro hmax
    have hlt : ¬ maxWindowCount tol (successValues rs) < p.minAgreeing :=
      Nat.not_lt_of_le hmax
    obtain ⟨v, hv, hveq⟩ := maxWindowCount_attained (Nat.lt_of_lt_of_le hp hmax)
    have hvc : v ∈ numCandidates tol (successValues rs) :=
      mem_numCandidates.mpr ⟨hv, hveq⟩
    have hne : (numCandidates tol (successValues rs)).toFinset.Nonempty :=
      ⟨v, List.mem_toFinset.mpr hvc⟩
    refine ⟨⟨(numCandidates tol (successValues rs)).toFinset.min' hne,
      numAgreeingSet tol rs ((numCandidates tol (successValues rs)).toFinset.min' hne)⟩, ?_⟩
    simp [resolveNumeric, hlt, hne]

lemma resolveNumeric_ok_inv (p : RequirementPolicy) (tol : Nat)
    (rs : List (SourceResult Int)) (c : CanonicalResult Int)
    (h : resolveNumeric p tol rs = .ok c) :
    c.value ∈ numCandidates tol (successValues rs)
    ∧ (∀ v ∈ numCandidates tol (successValues rs), c.value ≤ v)
    ∧ c.agreeingSources = numAgreeingSet tol rs c.value := by
  simp only [resolveNumeric] at h
  split at h
  · simp at h
  · split at h
    · rename_i hne
      rw [Except.ok.injEq] at h
      subst h
      refine ⟨?_, ?_, rfl⟩
      · exact List.mem_toFinset.mp (Finset.min'_mem _ hne)
      · intro v hv
        exact Finset.min'_le _ v (List.mem_toFinset.mpr hv)
    · simp at h

lemma resolveNumeric_error_kind (p : RequirementPolicy) (tol : Nat)
    (rs : List (SourceResult Int)) (e : ConsensusError)
    (h : resolveNumeric p tol rs = .error e) : e = .NoQuorum := by
  simp only [resolveNumeric] at h
  split at h
  · rw [Except.error.injEq] at h
    exact h.symm
  · split at h
    · simp at h
    · rw [Except.error.injEq] at h
      exact h.symm

end Splitter

namespace Splitter

/-- **C2.** For every result set of numeric values and every RequirementPolicy
with a positive quorum, the conservative-numeric strategy succeeds exactly when
at least `minAgreeing` successful sources report values pairwise within the
tolerance window (default 0, exact equality); on success the canonical value is
a reported value anchoring a best-supported agreeing window of size at least
`minAgreeing`, is minimal among all such anchors, and is the minimum of its
agreeing group; with no such agreeing set the resolution fails with the
no-quorum `ConsensusError`.  In particular `{100, 100, 105}` with
`minAgreeing = 2` and tolerance 0 yields 100, with the two sources reporting
100 as the agreeing set. -/
theorem conservativeNumeric_spec :
    (∀ (p : RequirementPolicy) (tol : Nat) (rs : List (SourceResult Int)),
      0 < p.minAgreeing →
      ((∃ c, resolveNumeric p tol rs = .ok c) ↔
        (∃ S : Multiset Int, S ≤ (successValues rs : Multiset Int) ∧
          p.minAgreeing ≤ Multiset.card S ∧
          ∀ a ∈ S, ∀ b ∈ S, (a - b).natAbs ≤ tol))
      ∧ (∀ c, resolveNumeric p tol rs = .ok c →
          c.value ∈ successValues rs
          ∧ p.minAgreeing ≤ windowCount tol (successValues rs) c.value
          ∧ windowCount tol (successValues rs) c.value
              = maxWindowCount tol (successValues rs)
          ∧ (∀ v ∈ numCandidates tol (successValues rs), c.value ≤ v)
          ∧ c.agreeingSources = numAgreeingSet tol rs c.value
          ∧ (∀ w ∈ successValues rs, numWindow tol c.value w = true → c.value ≤ w))
      ∧ ((¬ ∃ S : Multiset Int, S ≤ (successValues rs : Multiset Int) ∧
            p.minAgreeing ≤ Multiset.card S ∧ ∀ a ∈ S, ∀ b ∈ S, (a - b).natAbs ≤ tol) →
          resolveNumeric p tol rs = .error .NoQuorum))
    ∧ resolveNumeric ⟨3, 2, 2⟩ 0 [⟨0, .ok 100⟩, ⟨1, .ok 100⟩, ⟨2, .ok 105⟩]
        = .ok ⟨100, {0, 1}⟩ := by
  constructor
  · intro p tol rs hp
    refine ⟨?_, ?_, ?_⟩
    · rw [resolveNumeric_ok_iff p tol rs hp]
      exact (pairwise_agree_iff tol (successValues rs) hp).symm
    · intro c hc
      obtain ⟨hmem, hmin, hagree⟩ := resolveNumeric_ok_inv p tol rs c hc
      obtain ⟨hvsucc, hveq⟩ := mem_numCandidates.mp hmem
      have hquorum : p.minAgreeing ≤ maxWindowCount tol (successValues rs) :=
        (resolveNumeric_ok_iff p tol rs hp).mp ⟨c, hc⟩
      refine ⟨hvsucc, ?_, hveq, hmin, hagree, ?_⟩
      · rw [hveq]
        exact hquorum
      · intro w _ hw
        simp only [numWindow, Bool.and_eq_true, decide_eq_true_eq] at hw
        exact hw.1
    · intro hno
      cases hres : resolveNumeric p tol rs with
      | ok c =>
        have h1 : p.minAgreeing ≤ maxWindowCount tol (successValues rs) :=
          (resolveNumeric_ok_iff p tol rs hp).mp ⟨c, hres⟩
        exact absurd ((pairwise_agree_iff tol (successValues rs) hp).mpr h1) hno
      | error e =>
        rw [resolveNumeric_error_kind p tol rs e hres]
  · decide

/-- Witness for C2: at the concrete `{100, 100, 105}` result set with
`minAgreeing = 2` and tolerance 0, an agreeing pair exists. -/
theorem conservativeNumeric_spec_witness :
    0 < (⟨3, 2, 2⟩ : RequirementPolicy).minAgreeing ∧
      ∃ S : Multiset Int,
        S ≤ (successValues ([⟨0, .ok 100⟩, ⟨1, .ok 100⟩, ⟨2, .ok 105⟩] :
              List (SourceResult Int)) : Multiset Int) ∧
        (⟨3, 2, 2⟩ : RequirementPolicy).minAgreeing ≤ Multiset.card S ∧
        ∀ a ∈ S, ∀ b ∈ S, (a - b).natAbs ≤ 0 :=
  ⟨by decide,
    ((conservativeNumeric_spec.1 ⟨3, 2, 2⟩ 0
        [⟨0, .ok 100⟩, ⟨1, .ok 100⟩, ⟨2, .ok 105⟩] (by decide)).1).mp
      ⟨⟨100, {0, 1}⟩, conservativeNumeric_spec.2⟩⟩

end Splitter

namespace Splitter

lemma resolveExact_perm {α : Type} [DecidableEq α] (p : RequirementPolicy)
    {rs₁ rs₂ : List (SourceResult α)} (h : rs₁.Perm rs₂) :
    resolveExact p rs₁ = resolveExact p rs₂ := by
  have hs := successValues_perm h
  have hmax := maxGroupSize_perm hs
  have htopp := topValues_perm hs
  have hagree : ∀ a, agreeingSet rs₁ a = agreeingSet rs₂ a := agreeingSet_perm h
  rcases htop1 : topValues (successValues rs₁) with _ | ⟨a, _ | ⟨b, tl⟩⟩
  · have htop2 : topValues (successValues rs₂) = [] := (htop1 ▸ htopp).nil_eq.symm
    simp only [resolveExact, hs.length_eq, hmax, htop1, htop2]
  · have htop2 : topValues (successValues rs₂) = [a] := ((htop1 ▸ htopp).singleton_eq).symm
    simp only [resolveExact, hs.length_eq, hmax, htop1, htop2, hagree]
  · have hl := (htop1 ▸ htopp).length_eq
    rcases htop2 : topValues (successValues rs₂) with _ | ⟨c, _ | ⟨d, tl2⟩⟩
    · rw [htop2] at hl
      simp at hl
    · rw [htop2] at hl
      simp at hl
    · simp only [resolveExact, hs.length_eq, hmax, htop1, htop2]

lemma toNumResults_perm {rs₁ rs₂ : List (SourceResult JVal)} (h : rs₁.Perm rs₂) :
    (toNumResults rs₁).Perm (toNumResults rs₂) := h.map _

lemma resolveNumeric_perm (p : RequirementPolicy) (tol : Nat)
    {rs₁ rs₂ : List (SourceResult Int)} (h : rs₁.Perm rs₂) :
    resolveNumeric p tol rs₁ = resolveNumeric p tol rs₂ := by
  have hs := successValues_perm h
  have hwin : ∀ v, windowCount tol (successValues rs₁) v
      = windowCount tol (successValues rs₂) v :=
    fun v => hs.countP_eq _
  have hmax : maxWindowCount tol (successValues rs₁)
      = maxWindowCount tol (successValues rs₂) := by
    unfold maxWindowCount
    have hcongr : (successValues rs₁).map (windowCount tol (successValues rs₁))
        = (successValues rs₁).map (windowCount tol (successValues rs₂)) :=
      List.map_congr_left (fun a _ => hwin a)
    rw [hcongr]
    exact foldrMax_perm (hs.map _)
  have hcand : (numCandidates tol (successValues rs₁)).toFinset
      = (numCandidates tol (successValues rs₂)).toFinset := by
    apply toFinset_perm
    unfold numCandidates
    have hcongr : (successValues rs₁).filter
          (fun v => decide (windowCount tol (successValues rs₁) v
            = maxWindowCount tol (successValues rs₁)))
        = (successValues rs₁).filter
          (fun v => decide (windowCount tol (successValues rs₂) v
            = maxWindowCount tol (successValues rs₂))) := by
      apply List.filter_congr
      intro a _
      rw [hwin a, hmax]
    rw [hcongr]
    exact hs.filter _
  have hagree : ∀ v, numAgreeingSet tol rs₁ v = numAgreeingSet tol rs₂ v :=
    fun v => toFinset_perm ((h.filter _).map _)
  simp only [resolveNumeric, hmax, hcand, hagree]

lemma find?_fst_eq {β : Type} {l₁ l₂ : List (Nat × β)} (h : l₁.Perm l₂)
    (hn : (l₁.map Prod.fst).Nodup) (m : Nat) :
    l₁.find? (fun q => q.1 == m) = l₂.find? (fun q => q.1 == m) := by
  by_cases hex : ∃ q ∈ l₁, q.1 = m
  · obtain ⟨q, hq, hqm⟩ := hex
    have huniq : ∀ q' ∈ l₁, q'.1 = m → q' = q := by
      intro q' hq' hq'm
      exact List.inj_on_of_nodup_map hn hq' hq (by rw [hq'm, hqm])
    have h1 : l₁.find? (fun q => q.1 == m) = some q := by
      cases hf : l₁.find? (fun q => q.1 == m) with
      | none =>
        rw [List.find?_eq_none] at hf
        exact absurd (show (q.1 == m) = true by simp [hqm]) (hf q hq)
      | some q0 =>
        have hq0m : q0.1 = m := by simpa using List.find?_some hf
        have hq0mem := List.mem_of_find?_eq_some hf
        rw [huniq q0 hq0mem hq0m]
    have h2 : l₂.find? (fun q => q.1 == m) = some q := by
      cases hf : l₂.find? (fun q => q.1 == m) with
      | none =>
        rw [List.find?_eq_none] at hf
        exact absurd (show (q.1 == m) = true by simp [hqm]) (hf q (h.mem_iff.mp hq))
      | some q0 =>
        have hq0m : q0.1 = m := by simpa using List.find?_some hf
        have hq0mem := h.mem_iff.mpr (List.mem_of_find?_eq_some hf)
        rw [huniq q0 hq0mem hq0m]
    rw [h1, h2]
  · have h1 : l₁.find? (fun q => q.1 == m) = none := by
      rw [List.find?_eq_none]
      intro x hx hpx
      exact hex ⟨x, hx, by simpa using hpx⟩
    have h2 : l₂.find? (fun q => q.1 == m) = none := by
      rw [List.find?_eq_none]
      intro x hx hpx
      exact hex ⟨x, h.mem_iff.mpr hx, by simpa using hpx⟩
    rw [h1, h2]

lemma okPairs_fst_sublist {α : Type} (rs : List (SourceResult α)) :
    ((okPairs rs).map Prod.fst).Sublist (rs.map SourceResult.sourceID) := by
  induction rs with
  | nil => simp [okPairs]
  | cons r tl ih =>
    cases hv : r.value with
    | ok v =>
      simp only [okPairs, List.filterMap_cons, hv, List.map_cons]
      exact ih.cons₂ _
    | error e =>
      simp only [okPairs, List.filterMap_cons, hv, List.map_cons]
      exact ih.cons _

lemma resolveFirst_perm {α : Type} (p : RequirementPolicy)
    {rs₁ rs₂ : List (SourceResult α)} (hn : (rs₁.map SourceResult.sourceID).Nodup)
    (h : rs₁.Perm rs₂) : resolveFirst p rs₁ = resolveFirst p rs₂ := by
  have hoks : (okPairs rs₁).Perm (okPairs rs₂) := h.filterMap _
  have hfin : ((okPairs rs₁).map Prod.fst).toFinset
      = ((okPairs rs₂).map Prod.fst).toFinset :=
    toFinset_perm (hoks.map _)
  have hnod : ((okPairs rs₁).map Prod.fst).Nodup :=
    List.Nodup.sublist (okPairs_fst_sublist rs₁) hn
  have hfind : ∀ m, (okPairs rs₁).find? (fun q => q.1 == m)
      = (okPairs rs₂).find? (fun q => q.1 == m) :=
    fun m => find?_fst_eq hoks hnod m
  simp only [resolveFirst, hoks.length_eq, hfin, hfind]

/-- **C3.** Resolution is deterministic and a function of the set of
SourceResults: for every method, every RequirementPolicy, and every two runs
of resolve on the same set of SourceResults (in particular any reordering of
a result set with one result per source), the returned CanonicalResult, or
the failure kind on failure, is identical. -/
theorem resolve_deterministic (table : List (String × Strategy)) (method : String)
    (p : RequirementPolicy) {rs₁ rs₂ : List (SourceResult JVal)}
    (hn : (rs₁.map SourceResult.sourceID).Nodup) (h : rs₁.Perm rs₂) :
    resolve (strategyFor table method) p rs₁
      = resolve (strategyFor table method) p rs₂ := by
  cases strategyFor table method with
  | exact => exact resolveExact_perm p h
  | numeric tol =>
    simp only [resolve]
    rw [resolveNumeric_perm p tol (toNumResults_perm h)]
  | firstSuccess => exact resolveFirst_perm p hn h

/-- Witness for C3: a concrete two-source result set resolved under the
first-success strategy gives the same answer after reordering. -/
theorem resolve_deterministic_witness :
    (([⟨0, .ok (JVal.num 1)⟩, ⟨1, .ok (JVal.num 2)⟩] :
        List (SourceResult JVal)).map SourceResult.sourceID).Nodup
    ∧ resolve (strategyFor [("m", Strategy.firstSuccess)] "m") ⟨2, 1, 1⟩
        [⟨0, .ok (JVal.num 1)⟩, ⟨1, .ok (JVal.num 2)⟩]
      = resolve (strategyFor [("m", Strategy.firstSuccess)] "m") ⟨2, 1, 1⟩
        [⟨1, .ok (JVal.num 2)⟩, ⟨0, .ok (JVal.num 1)⟩] :=
  ⟨by decide,
    resolve_deterministic [("m", Strategy.firstSuccess)] "m" ⟨2, 1, 1⟩
      (by decide) (by decide)⟩

end Splitter

namespace Splitter

lemma resolveExact_mono {α : Type} [DecidableEq α] (p : RequirementPolicy) (k' : Nat)
    (hk : k' ≤ p.minAgreeing) {rs : List (SourceResult α)} {c : CanonicalResult α}
    (hres : resolveExact p rs = .ok c) :
    resolveExact ⟨p.totalSources, p.minResponses, k'⟩ rs = .ok c := by
  by_cases h1 : (successValues rs).length < p.minResponses
  · simp [resolveExact, h1] at hres
  · by_cases h2 : maxGroupSize (successValues rs) < p.minAgreeing
    · simp [resolveExact, h1, h2] at hres
    · have h2' : ¬ maxGroupSize (successValues rs) < k' := by omega
      rcases htop : topValues (successValues rs) with _ | ⟨a, _ | ⟨b, tl⟩⟩
      · simp [resolveExact, h1, h2, htop] at hres
      · have hres' : resolveExact p rs = .ok ⟨a, agreeingSet rs a⟩ := by
          simp [resolveExact, h1, h2, htop]
        have hgoal : resolveExact (⟨p.totalSources, p.minResponses, k'⟩ :
            RequirementPolicy) rs = .ok ⟨a, agreeingSet rs a⟩ := by
          simp [resolveExact, h1, h2', htop]
        rw [hgoal, ← hres, hres']
      · simp [resolveExact, h1, h2, htop] at hres

lemma resolveNumeric_mono (p : RequirementPolicy) (tol k' : Nat)
    (hk : k' ≤ p.minAgreeing) {rs : List (SourceResult Int)} {c : CanonicalResult Int}
    (hres : resolveNumeric p tol rs = .ok c) :
    resolveNumeric ⟨p.totalSources, p.minResponses, k'⟩ tol rs = .ok c := by
  by_cases h2 : maxWindowCount tol (successValues rs) < p.minAgreeing
  · simp [resolveNumeric, h2] at hres
  · have h2' : ¬ maxWindowCount tol (successValues rs) < k' := by omega
    by_cases hne : (numCandidates tol (successValues rs)).toFinset.Nonempty
    · have heq : resolveNumeric p tol rs
          = resolveNumeric ⟨p.totalSources, p.minResponses, k'⟩ tol rs := by
        simp [resolveNumeric, h2, h2', hne]
      rw [← heq]
      exact hres
    · simp [resolveNumeric, h2, hne] at hres

lemma resolveFirst_policy {α : Type} (p q : RequirementPolicy)
    (hpq : p.minResponses = q.minResponses) (rs : List (SourceResult α)) :
    resolveFirst p rs = resolveFirst q rs := by
  simp only [resolveFirst, hpq]

/-- **C4.** Quorum monotonicity: for every result set and every
RequirementPolicy, if resolution succeeds with canonical result `c` under
`minAgreeing = k`, then for every `0 < k' ≤ k` resolution over the same result
set with `minAgreeing = k'` (other policy fields unchanged) also succeeds with
the same canonical value. -/
theorem quorum_monotone (s : Strategy) (p : RequirementPolicy) (k' : Nat)
    {rs : List (SourceResult JVal)} {c : CanonicalResult JVal}
    (h0 : 0 < k') (hk : k' ≤ p.minAgreeing)
    (hres : resolve s p rs = .ok c) :
    resolve s ⟨p.totalSources, p.minResponses, k'⟩ rs = .ok c := by
  cases s with
  | exact =>
    simp only [resolve] at hres ⊢
    exact resolveExact_mono p k' hk hres
  | numeric tol =>
    simp only [resolve] at hres ⊢
    cases hn : resolveNumeric p tol (toNumResults rs) with
    | ok c0 =>
      rw [hn] at hres
      rw [resolveNumeric_mono p tol k' hk hn]
      exact hres
    | error e =>
      rw [hn] at hres
      simp [Except.map] at hres
  | firstSuccess =>
    simp only [resolve] at hres ⊢
    rw [← resolveFirst_policy p ⟨p.totalSources, p.minResponses, k'⟩ rfl rs]
    exact hres

/-- A result set where two of three sources agree exactly. -/
def monoResults : List (SourceResult JVal) :=
  [⟨0, .ok (JVal.num 1)⟩, ⟨1, .ok (JVal.num 1)⟩, ⟨2, .error "x"⟩]

/-- Witness for C4: a resolution succeeding under `minAgreeing = 2` still
succeeds with the same canonical value under `minAgreeing = 1`. -/
theorem quorum_monotone_witness :
    0 < 1 ∧ 1 ≤ (⟨3, 2, 2⟩ : RequirementPolicy).minAgreeing ∧
      resolve Strategy.exact ⟨3, 2, 1⟩ monoResults = .ok ⟨JVal.num 1, {0, 1}⟩ :=
  ⟨by decide, by decide,
    quorum_monotone Strategy.exact ⟨3, 2, 2⟩ 1 (by decide) (by decide) (by decide)⟩

end Splitter

namespace Splitter

/-- **C7.** For every result set, the first-success / pass-through strategy
returns the value of the first responding source — the successful source of
least identifier — without comparing it to any other source's value, provided
at least `minResponses ≥ 1` sources responded successfully; with fewer
successful responses (in particular none at all) it fails. -/
theorem firstSuccess_spec {α : Type} (p : RequirementPolicy)
    (rs : List (SourceResult α)) (hp : 1 ≤ p.minResponses) :
    ((okPairs rs).length < p.minResponses →
      resolveFirst p rs = .error .InsufficientResponses)
    ∧ (p.minResponses ≤ (okPairs rs).length →
      ∃ q, q ∈ okPairs rs ∧ (∀ q' ∈ okPairs rs, q.1 ≤ q'.1)
        ∧ resolveFirst p rs = .ok ⟨q.2, {q.1}⟩) := by
  constructor
  · intro hlt
    simp [resolveFirst, hlt]
  · intro hge
    have hne0 : (okPairs rs).length ≠ 0 := by omega
    have hnlt : ¬ ((okPairs rs).length < p.minResponses ∨ (okPairs rs).length = 0) := by
      push_neg
      exact ⟨hge, hne0⟩
    obtain ⟨q0, hq0⟩ : ∃ q0, q0 ∈ okPairs rs := by
      cases hoks : okPairs rs with
      | nil => rw [hoks] at hne0; simp at hne0
      | cons a tl => exact ⟨a, hoks ▸ List.mem_cons_self a tl⟩
    have hne : ((okPairs rs).map Prod.fst).toFinset.Nonempty :=
      ⟨q0.1, List.mem_toFinset.mpr (List.mem_map.mpr ⟨q0, hq0, rfl⟩)⟩
    have hmem : ((okPairs rs).map Prod.fst).toFinset.min' hne ∈ (okPairs rs).map Prod.fst :=
      List.mem_toFinset.mp (Finset.min'_mem _ hne)
    obtain ⟨q1, hq1, hq1m⟩ := List.mem_map.mp hmem
    have hsome : ((okPairs rs).find? (fun q =>
        q.1 == ((okPairs rs).map Prod.fst).toFinset.min' hne)).isSome := by
      rw [List.find?_isSome]
      exact ⟨q1, hq1, by simp [hq1m]⟩
    obtain ⟨q2, hq2⟩ := Option.isSome_iff_exists.mp hsome
    have hq2mem := List.mem_of_find?_eq_some hq2
    have hq2m : q2.1 = ((okPairs rs).map Prod.fst).toFinset.min' hne := by
      simpa using List.find?_some hq2
    refine ⟨q2, hq2mem, ?_, ?_⟩
    · intro q' hq'
      rw [hq2m]
      exact Finset.min'_le _ _ (List.mem_toFinset.mpr (List.mem_map.mpr ⟨q', hq', rfl⟩))
    · simp only [resolveFirst]
      rw [if_neg hnlt, dif_pos hne, hq2]

/-- A result set whose successful source of least identifier reports 7. -/
def firstDemo : List (SourceResult JVal) :=
  [⟨2, .ok (JVal.num 5)⟩, ⟨0, .error "x"⟩, ⟨1, .ok (JVal.num 7)⟩]

/-- Witness for C7: with one response required, the pass-through strategy
returns the successful source of least identifier. -/
theorem firstSuccess_spec_witness :
    1 ≤ (⟨3, 1, 1⟩ : RequirementPolicy).minResponses ∧
      ∃ q, q ∈ okPairs firstDemo ∧ (∀ q' ∈ okPairs firstDemo, q.1 ≤ q'.1)
        ∧ resolveFirst ⟨3, 1, 1⟩ firstDemo = .ok ⟨q.2, {q.1}⟩ :=
  ⟨by decide, (firstSuccess_spec ⟨3, 1, 1⟩ firstDemo (by decide)).2 (by decide)⟩

end Splitter
